import Mathlib

/-!
Verification of the `brainz` command (sav/brainz, `main.go`) against its
natural-language specification.

The Go program is shallowly embedded: Go strings are `List Char`, Go `int64`
is `Int` (with explicit two's-complement wrapping where the code can
overflow), HTTP calls are parameters of the functions that perform them
(a fetch outcome `Except String Listens`, a delete-endpoint outcome, ...),
and Go's unbounded `for` loop is given explicit fuel, with a dedicated
result constructor for running out of fuel.
-/

deriving instance DecidableEq for Except

/-- Track describes a music track (`Track` in main.go); Go strings are
modelled as `List Char`. -/
structure Track where
  name : List Char
  artist : List Char
deriving DecidableEq

/-- Listen describes the Recording of a Track listened at a given
ListenedAt time (`Listen` in main.go). `listenedAt` is the Go `int64`
unix-seconds timestamp. -/
structure Listen where
  recording : List Char
  track : Track
  listenedAt : Int
deriving DecidableEq

/-- Payload contains a set of Listens (`Payload` in main.go). -/
structure Payload where
  count : Int
  latest : Int
  listens : List Listen
deriving DecidableEq

/-- Listens wraps a Payload (`Listens` in main.go). -/
structure Listens where
  payload : Payload
deriving DecidableEq

/-- `(*Listens).length()` from main.go. The Go receiver is a pointer and the
method returns 0 for nil; the embedding works with values, where the nil
case does not arise. -/
def Listens.length (listens : Listens) : Nat :=
  listens.payload.listens.length

/-- The empty `Listens{}` value that `getListens` returns on any error. -/
def emptyListens : Listens := ⟨⟨0, 0, []⟩⟩

/-- `getListens` from main.go, as a function of the outcome of its HTTP
request/decode pipeline. On any error (request construction, send, body
read, or JSON decode) the Go function prints the error and returns the
empty `Listens{}` value; the error is not propagated. On success it
returns the decoded page. -/
def getListens (outcome : Except String Listens) : Listens :=
  match outcome with
  | .error _ => emptyListens
  | .ok listens => listens

/-- `lastTimestamp` from main.go indexes `listens[len(listens)-1]` with no
guard; `none` models the index-out-of-range panic on an empty slice. -/
def lastTimestamp (listens : List Listen) : Option Int :=
  listens.getLast?.map Listen.listenedAt

/-- The per-record stop test of `getAllListens`: a record is kept (not cut
off) when `!(cutOffTime > 0 && listen.ListenedAt < cutOffTime)`. -/
def keepsRecord (cutOffTime : Int) (listen : Listen) : Bool :=
  !(decide (cutOffTime > 0 ∧ listen.listenedAt < cutOffTime))

/-- The inner `for _, listen := range page.Payload.Listens` loop of
`getAllListens` in main.go. `Sum.inl res` models the early `return listens`
(cutoff hit, or the count limit reached after appending); `Sum.inr acc`
models falling through to the next page with the accumulator so far. -/
def consumePage (cutOffTime maxCount : Int) : List Listen → List Listen → Sum (List Listen) (List Listen)
  | [], acc => .inr acc
  | listen :: rest, acc =>
    if cutOffTime > 0 ∧ listen.listenedAt < cutOffTime then .inl acc
    else if maxCount ≤ ((acc ++ [listen]).length : Int) then .inl (acc ++ [listen])
    else consumePage cutOffTime maxCount rest (acc ++ [listen])

/-- Result of a `getAllListens` run. `ok` is a normal return; `panicked`
models the index-out-of-range panic inside `lastTimestamp`; `diverged`
means the fuel ran out while the Go `for` loop was still running. -/
inductive DriverResult where
  | ok (listens : List Listen)
  | panicked
  | diverged
deriving DecidableEq

/-- The `for` loop of `getAllListens` from main.go. `fetch` maps the
cursor passed to `getListens(timestamp)` to the outcome of that HTTP
request; `ts` is the `timestamp` variable, `acc` the `listens`
accumulator. -/
def getAllListensAux (cutOffTime maxCount : Int) (fetch : Int → Except String Listens) : Nat → Int → List Listen → DriverResult
  | 0, _, _ => .diverged
  | fuel + 1, ts, acc =>
    if (getListens (fetch ts)).length = 0 then .ok acc
    else
      match lastTimestamp (getListens (fetch ts)).payload.listens with
      | none => .panicked
      | some ts' =>
        match consumePage cutOffTime maxCount (getListens (fetch ts)).payload.listens acc with
        | .inl result => .ok result
        | .inr acc' => getAllListensAux cutOffTime maxCount fetch fuel ts' acc'

/-- `getAllListens` from main.go: the loop starts with `timestamp := 0`
and an empty accumulator. -/
def getAllListens (cutOffTime maxCount : Int) (fetch : Int → Except String Listens) (fuel : Nat) : DriverResult :=
  getAllListensAux cutOffTime maxCount fetch fuel 0 []

/-- The listing endpoint serves the given sequence of pages: fetching at
the current cursor yields the next page of the list, the following cursor
is that page's last timestamp (as computed by `lastTimestamp`), and once
the list is exhausted the endpoint serves an empty page. Every page of
the list is forced nonempty (an empty `p` makes `lastTimestamp p = none`
and the result `false`). -/
def servesPages (fetch : Int → Except String Listens) : List (List Listen) → Int → Bool
  | [], ts => decide ((getListens (fetch ts)).payload.listens = [])
  | p :: rest, ts =>
    decide ((getListens (fetch ts)).payload.listens = p) &&
      match lastTimestamp p with
      | none => false
      | some ts' => servesPages fetch rest ts'

/-- The records of `ls` carry strictly decreasing timestamps. -/
def strictlyDecreasing : List Listen → Bool
  | [] => true
  | [_] => true
  | a :: b :: rest => decide (b.listenedAt < a.listenedAt) && strictlyDecreasing (b :: rest)

/-- Modelled from the spec's words (for comparison with `getAllListens`):
the records of the served pages, in served order, truncated at the first
record whose timestamp is strictly below the cutoff (when a cutoff is
set), and capped at `maxCount` records. -/
def paginationSpec (cutOffTime maxCount : Int) (pages : List (List Listen)) : List Listen :=
  ((pages.flatten).takeWhile (keepsRecord cutOffTime)).take maxCount.toNat

/-- Concrete listens used as test fixtures. -/
def trackFloyd : Track := ⟨"Echoes".toList, "Pink Floyd".toList⟩

def listen500 : Listen := ⟨"r500".toList, trackFloyd, 500⟩

def listen400 : Listen := ⟨"r400".toList, trackFloyd, 400⟩

def listen300 : Listen := ⟨"r300".toList, trackFloyd, 300⟩

def listen150 : Listen := ⟨"r150".toList, trackFloyd, 150⟩

/-- A page source serving one page `[500, 400, 300]` and then empty pages. -/
def fetchOnePage : Int → Except String Listens := fun ts =>
  if ts = 0 then .ok ⟨⟨3, 500, [listen500, listen400, listen300]⟩⟩ else .ok emptyListens

/-- A page source whose first fetch succeeds with one record and whose
second fetch (at cursor 500) fails with a network error. -/
def fetchThenError : Int → Except String Listens := fun ts =>
  if ts = 0 then .ok ⟨⟨1, 500, [listen500]⟩⟩ else .error "network"

/-- A page source serving one page `[150]` and then empty pages. -/
def fetchOne150 : Int → Except String Listens := fun ts =>
  if ts = 0 then .ok ⟨⟨1, 150, [listen150]⟩⟩ else .ok emptyListens

/-- A page source that always serves an empty page. -/
def fetchEmpty : Int → Except String Listens := fun _ => .ok emptyListens

/-- The `fmt` package's space table (`isSpace` in fmt/scan.go): the
characters a `Sscanf` verb may treat as space — 0x09-0x0d, the ASCII
space, and the Unicode spaces U+0085, U+00A0, U+1680, U+2000-U+200A,
U+2028, U+2029, U+202F, U+205F, U+3000. -/
def isScanSpace (ch : Char) : Bool :=
  decide (9 ≤ ch.toNat ∧ ch.toNat ≤ 13) || decide (ch.toNat = 32) ||
  decide (ch.toNat = 133) || decide (ch.toNat = 160) ||
  decide (ch.toNat = 5760) ||
  decide (8192 ≤ ch.toNat ∧ ch.toNat ≤ 8202) ||
  decide (ch.toNat = 8232) || decide (ch.toNat = 8233) ||
  decide (ch.toNat = 8239) || decide (ch.toNat = 8287) ||
  decide (ch.toNat = 12288)

/-- `(*ss).SkipSpace` from fmt/scan.go as `Sscanf` (newline-sensitive
scanning, `nlIsSpace = false`) runs it before a `%d` verb: leading `fmt`
spaces — including `\v`, `\f`, a lone `\r` and the Unicode spaces — are
consumed, but a bare newline, or a carriage return directly followed by a
newline, is an "unexpected newline" scan error, modelled as `none`. -/
def skipScanSpace : List Char → Option (List Char)
  | [] => some []
  | '\r' :: '\n' :: _ => none
  | '\n' :: _ => none
  | ch :: rest => if isScanSpace ch then skipScanSpace rest else some (ch :: rest)

/-- Decimal value of a digit string, most significant first. -/
def charsToNat (digits : List Char) : Nat :=
  digits.foldl (fun acc ch => acc * 10 + (ch.toNat - 48)) 0

/-- Largest Go `int64` value. -/
def int64Max : Int := 9223372036854775807

/-- Smallest Go `int64` value. -/
def int64Min : Int := -9223372036854775808

/-- Magnitude part of `fmt.Sscanf(s, "%d", &amount)` with `amount` an
`int64`: the longest leading digit run is the number; no digit is a scan
error, and a value outside the `int64` range is an out-of-range error.
Both errors are `none`. -/
def sscanfMagnitude (sign : Int) (s : List Char) : Option Int :=
  let digits := s.takeWhile Char.isDigit
  if digits = [] then none
  else
    let v := sign * (charsToNat digits : Int)
    if v < int64Min ∨ int64Max < v then none else some v

/-- `fmt.Sscanf(nVal, "%d", &amount)` from `parseTimeFilter`: skip leading
`fmt` spaces (a bare newline there is a scan error), read an optional
sign and then a decimal `int64`; characters after the number are ignored
(`Sscanf` does not require the whole input to be consumed). `none` models
a non-nil scan error. -/
def sscanfInt (s : List Char) : Option Int :=
  match skipScanSpace s with
  | none => none
  | some ('+' :: rest) => sscanfMagnitude 1 rest
  | some ('-' :: rest) => sscanfMagnitude (-1) rest
  | some other => sscanfMagnitude 1 other

/-- The `switch unit` of `parseTimeFilter`, in nanoseconds: the duration
built by `time.Duration(amount) * time.Minute` etc. before the
multiplication by `amount` (m = 60e9 ns, h = 3600e9 ns, d = 86400e9 ns,
y = 31536000e9 ns). `none` models the `default` error branch. -/
def unitNanos (unit : Char) : Option Int :=
  if unit = 'm' then some 60000000000
  else if unit = 'h' then some 3600000000000
  else if unit = 'd' then some 86400000000000
  else if unit = 'y' then some 31536000000000000
  else none

/-- Two's-complement wrapping of an unbounded integer into `int64`, as Go
arithmetic on `time.Duration` values does on overflow. -/
def wrapS64 (x : Int) : Int :=
  (x + 9223372036854775808) % 18446744073709551616 - 9223372036854775808

/-- `parseTimeFilter` from main.go. `nowSec`/`nowNsec` are the seconds and
sub-second nanoseconds of `time.Now()`; the input string is a byte/char
list. The cutoff is `time.Now().Add(-duration).Unix()`: the current time
in nanoseconds minus the (wrapped) duration, floor-divided into seconds. -/
def parseTimeFilter (nowSec nowNsec : Int) (input : List Char) : Except String Int :=
  if input = [] then .ok 0
  else if input.length < 2 then .error "invalid time filter"
  else
    match sscanfInt input.dropLast with
    | none => .error "invalid duration"
    | some amount =>
      if amount ≤ 0 then .error "invalid duration"
      else
        match unitNanos (input.getLastD ' ') with
        | none => .error "invalid duration unit"
        | some nanos =>
          .ok (Int.fdiv (nowSec * 1000000000 + nowNsec + wrapS64 (-(wrapS64 (amount * nanos)))) 1000000000)

/-- Whether a parse outcome is an error. -/
def isErrorResult (r : Except String Int) : Bool :=
  match r with
  | .error _ => true
  | .ok _ => false

/-- Result of one `deleteListen` call. `ret b` is a normal return of `b`;
`panicked` models the `panic(err)` branches. -/
inductive DeleteResult where
  | ret (ok : Bool)
  | panicked
deriving DecidableEq

/-- `deleteListen` from main.go, as a function of the outcomes of its three
fallible steps: `json.Marshal` (panic on error), `http.NewRequest` (print
and return false on error), and `client.Do` (panic on error). On a
response, the function returns `resp.StatusCode == http.StatusOK`. -/
def deleteListen (marshalOutcome : Except String Unit) (requestOutcome : Except String Unit) (sendOutcome : Except String Int) : DeleteResult :=
  match marshalOutcome with
  | .error _ => .panicked
  | .ok _ =>
    match requestOutcome with
    | .error _ => .ret false
    | .ok _ =>
      match sendOutcome with
      | .error _ => .panicked
      | .ok status => .ret (decide (status = 200))

/-- `Listen.String()` from main.go:
`"[" + Time() + "] " + artist + " - \"" + name + "\""`. The RFC3339
rendering of the timestamp is abstracted as `fmtTime`. -/
def listenString (fmtTime : Int → List Char) (listen : Listen) : List Char :=
  ['['] ++ fmtTime listen.listenedAt ++ [']', ' '] ++ listen.track.artist
    ++ [' ', '-', ' ', '"'] ++ listen.track.name ++ ['"']

/-- Go regexp (RE2) semantics of `MatchString("(?i).+", s)`: `.` matches
any character except newline, `+` asks for at least one, and the match may
start anywhere, so the pattern matches exactly the strings containing at
least one non-newline character. -/
def matchDotPlus (s : List Char) : Bool :=
  s.any (fun ch => !(ch == '\n'))

/-- Whether `pat` is a prefix of `s`, by characters. -/
def isPrefixChars : List Char → List Char → Bool
  | [], _ => true
  | _ :: _, [] => false
  | a :: as, b :: bs => (a == b) && isPrefixChars as bs

/-- Whether `pat` occurs contiguously inside `s`. -/
def containsSeq (pat : List Char) : List Char → Bool
  | [] => isPrefixChars pat []
  | ch :: rest => isPrefixChars pat (ch :: rest) || containsSeq pat rest

/-- Go regexp (RE2) semantics of `MatchString("(?i)" + lit, s)` for a
pattern `lit` that is a plain literal (no metacharacters): an unanchored,
case-insensitive substring test. -/
def matchLiteralCI (lit s : List Char) : Bool :=
  containsSeq (lit.map Char.toLower) (s.map Char.toLower)

/-- Observable output of the `brainz` loop for one record. -/
inductive Event where
  | printed (listen : Listen)
  | warned (listen : Listen)
deriving DecidableEq

/-- Result of a `brainz` run. `completed` is the normal end of the loop;
`matchAborted` models `os.Exit(1)` on a regexp error; `deleteAborted`
models a panic escaping `deleteListen`. -/
inductive RunOutcome where
  | completed (events : List Event)
  | matchAborted (events : List Event)
  | deleteAborted (events : List Event)
deriving DecidableEq

/-- The `for _, listen := range listens` loop of `brainz` from main.go,
run over the records returned by `getAllListens`. `matcher` is the
outcome of `regexp.MatchString("(?i)"+searchPattern, listen.String())`;
`delFn` the outcome of `deleteListen(listen)`; `del` the `-d` flag. -/
def brainz (cutOffTime : Int) (del : Bool) (matcher : List Char → Except String Bool) (delFn : Listen → DeleteResult) (fmtTime : Int → List Char) : List Listen → List Event → RunOutcome
  | [], events => .completed events
  | listen :: rest, events =>
    if cutOffTime > 0 ∧ listen.listenedAt < cutOffTime then
      brainz cutOffTime del matcher delFn fmtTime rest events
    else
      match matcher (listenString fmtTime listen) with
      | .error _ => .matchAborted events
      | .ok false => brainz cutOffTime del matcher delFn fmtTime rest events
      | .ok true =>
        let events1 := events ++ [Event.printed listen]
        if del then
          match delFn listen with
          | .panicked => .deleteAborted events1
          | .ret true => brainz cutOffTime del matcher delFn fmtTime rest events1
          | .ret false => brainz cutOffTime del matcher delFn fmtTime rest (events1 ++ [Event.warned listen])
        else brainz cutOffTime del matcher delFn fmtTime rest events1

/-- `MaxUint16` from main.go: `int64(uint16(1<<16 - 1))`. -/
def MaxUint16 : Int := Int.ofNat ((1 <<< 16 - 1) % 2 ^ 16)

/-- The default of the `-c` flag: `flag.Int64Var(&maxCount, "c", MaxUint16, ...)`. -/
def maxCountDefault : Int := MaxUint16

/-- A constant RFC3339-shaped time rendering used in concrete scenarios. -/
def fmtTimeFixed : Int → List Char := fun _ => "1970-01-01T00:00:00Z".toList

/-- A matcher that matches everything, used in concrete scenarios. -/
def matchAll : List Char → Except String Bool := fun _ => .ok true

lemma lastTimestamp_of_ne_nil {l : List Listen} (h : l ≠ []) : ∃ ts, lastTimestamp l = some ts := by
  unfold lastTimestamp
  cases hg : l.getLast? with
  | none => exact absurd (List.getLast?_eq_none_iff.mp hg) h
  | some a => exact ⟨a.listenedAt, by simp [hg]⟩

lemma lastTimestamp_nil : lastTimestamp [] = none := rfl

/-- Claim C10: `lastTimestamp` has no guard (`lastTimestamp [] = none`
models the out-of-bounds panic on an empty list), but `getAllListens` only
calls it after checking that the page has nonzero length, so no run of
the loop, from any state, ever panics. -/
theorem lastTimestamp_panic_unreachable :
    lastTimestamp [] = none ∧
    ∀ (c m : Int) (fetch : Int → Except String Listens) (fuel : Nat) (ts : Int) (acc : List Listen),
      getAllListensAux c m fetch fuel ts acc ≠ DriverResult.panicked := by
  refine ⟨rfl, fun c m fetch fuel => ?_⟩
  induction fuel with
  | zero => intro ts acc; simp [getAllListensAux]
  | succ n ih =>
    intro ts acc
    rw [getAllListensAux]
    by_cases hlen : (getListens (fetch ts)).length = 0
    · simp [hlen]
    · rw [if_neg hlen]
      have hne : (getListens (fetch ts)).payload.listens ≠ [] := by
        intro he
        exact hlen (by simp [Listens.length, he])
      obtain ⟨ts', hts'⟩ := lastTimestamp_of_ne_nil hne
      rw [hts']
      cases hcp : consumePage c m (getListens (fetch ts)).payload.listens acc with
      | inl res => simp
      | inr acc' => exact ih ts' acc'

/-- Claim C2, counterexample: the second fetch fails with a network error,
yet `getAllListens` returns the record accumulated from the first page as
a normal success result — the error is neither propagated nor does it
discard the partial result. -/
theorem fetch_error_partial_success_cex :
    fetchThenError 500 = Except.error "network" ∧
    getAllListens 0 100 fetchThenError 2 = DriverResult.ok [listen500] := by decide

/-- Claim C2, amended: any error in fetching or decoding a page makes
`getListens` return the empty `Listens{}` value, so the pagination loop
treats it as an empty page, stops without error, and returns the records
accumulated from earlier successful pages as a normal success result. -/
theorem fetch_error_swallowed (c m : Int) (fetch : Int → Except String Listens)
    (fuel : Nat) (ts : Int) (acc : List Listen) (e : String) (h : fetch ts = .error e) :
    getListens (fetch ts) = emptyListens ∧
    getAllListensAux c m fetch (fuel + 1) ts acc = DriverResult.ok acc := by
  have h1 : getListens (fetch ts) = emptyListens := by rw [h]; rfl
  refine ⟨h1, ?_⟩
  rw [getAllListensAux, if_pos (by simp [h1, emptyListens, Listens.length])]

/-- Witness for `fetch_error_swallowed` at a concrete erroring fetch. -/
theorem fetch_error_swallowed_witness :
    fetchThenError 500 = Except.error "network" ∧
    getAllListensAux 0 100 fetchThenError 1 500 [] = DriverResult.ok [] :=
  ⟨by decide, (fetch_error_swallowed 0 100 fetchThenError 0 500 [] "network" (by decide)).2⟩

lemma serves_not_diverged (c m : Int) (fetch : Int → Except String Listens) :
    ∀ (ps : List (List Listen)) (ts : Int) (acc : List Listen),
      servesPages fetch ps ts = true →
      getAllListensAux c m fetch (ps.length + 1) ts acc ≠ DriverResult.diverged := by
  intro ps
  induction ps with
  | nil =>
    intro ts acc h
    simp only [servesPages, decide_eq_true_eq] at h
    rw [List.length_nil, getAllListensAux, if_pos (by simp [Listens.length, h])]
    simp
  | cons p rest ih =>
    intro ts acc h
    simp only [servesPages, Bool.and_eq_true, decide_eq_true_eq] at h
    obtain ⟨hpage, hrest⟩ := h
    cases hlast : lastTimestamp p with
    | none => rw [hlast] at hrest; simp at hrest
    | some ts' =>
      rw [hlast] at hrest
      have hpne : p ≠ [] := by
        intro he; subst he; simp [lastTimestamp_nil] at hlast
      rw [List.length_cons, getAllListensAux,
        if_neg (by simp [Listens.length, hpage, List.length_eq_zero]; exact hpne)]
      simp only [hpage, hlast]
      cases hcp : consumePage c m p acc with
      | inl res => simp
      | inr acc' => exact ih ts' acc' hrest

/-- Claim C5: a fetched page with zero records makes the loop stop without
error, returning the records accumulated so far (from any loop state);
and against an endpoint that serves finitely many nonempty pages and then
an empty one, the loop terminates (fuel one more than the number of
nonempty pages is enough, so the result is not `diverged`). -/
theorem getAllListens_stops_on_empty_page :
    (∀ (c m : Int) (fetch : Int → Except String Listens) (fuel : Nat) (ts : Int) (acc : List Listen),
        (getListens (fetch ts)).length = 0 →
        getAllListensAux c m fetch (fuel + 1) ts acc = DriverResult.ok acc) ∧
    (∀ (c m : Int) (fetch : Int → Except String Listens) (ps : List (List Listen)),
        servesPages fetch ps 0 = true →
        getAllListens c m fetch (ps.length + 1) ≠ DriverResult.diverged) := by
  constructor
  · intro c m fetch fuel ts acc h
    rw [getAllListensAux, if_pos h]
  · intro c m fetch ps h
    exact serves_not_diverged c m fetch ps 0 [] h

/-- Witness for `getAllListens_stops_on_empty_page` on a concrete
always-empty page source. -/
theorem getAllListens_stops_on_empty_page_witness :
    getAllListensAux 0 5 fetchEmpty 1 0 [listen500] = DriverResult.ok [listen500] ∧
    getAllListens 0 5 fetchEmpty 1 ≠ DriverResult.diverged :=
  ⟨getAllListens_stops_on_empty_page.1 0 5 fetchEmpty 0 0 [listen500] (by decide),
   getAllListens_stops_on_empty_page.2 0 5 fetchEmpty [] (by decide)⟩

/-- Claim C7, counterexample: the default of the `-c` flag is
`MaxUint16 = 65535`, which is not the largest representable count — the
flag is a Go `int64`, whose largest value is `int64Max`, strictly above
the default. -/
theorem maxCountDefault_bounded_cex :
    maxCountDefault = 65535 ∧ maxCountDefault ≠ int64Max ∧ maxCountDefault < int64Max := by decide

/-- Claim C7, amended: the default of the count limit is `MaxUint16`, the
largest value of an unsigned 16-bit integer (65535) — a finite bound
strictly below the largest representable `int64` count. -/
theorem maxCountDefault_is_maxUint16 :
    maxCountDefault = MaxUint16 ∧ MaxUint16 = 2 ^ 16 - 1 ∧ maxCountDefault < int64Max := by decide

/-- Claim C8, counterexample: a failure to construct the delete request is
not escalated to a fatal abort — `deleteListen` returns `false`, and the
orchestrator treats it as a per-record failure: it prints a warning and
the run completes normally. -/
theorem deleteListen_construct_failure_cex :
    deleteListen (Except.ok ()) (Except.error "bad request") (Except.ok 200) = DeleteResult.ret false ∧
    brainz 0 true matchAll (fun _ => deleteListen (Except.ok ()) (Except.error "bad request") (Except.ok 200))
        fmtTimeFixed [listen500] [] =
      RunOutcome.completed [Event.printed listen500, Event.warned listen500] := by decide

/-- Claim C8, amended: the escalation is asymmetric — a transport-level
failure to send the delete request panics (fatal abort), while a failure
to construct the request returns `false` and is handled as a per-record,
non-fatal delete failure. -/
theorem deleteListen_failure_asymmetry :
    (∀ e : String, deleteListen (Except.ok ()) (Except.ok ()) (Except.error e) = DeleteResult.panicked) ∧
    (∀ (e : String) (send : Except String Int), deleteListen (Except.ok ()) (Except.error e) send = DeleteResult.ret false) :=
  ⟨fun _ => rfl, fun _ _ => rfl⟩

/-- Claim C6: the rendered form of a record is never empty (it always
starts with `[`), the default pattern `.+` matches every rendered record
(under RE2 semantics it matches any string with a non-newline character),
and matching is case-insensitive: the pattern `floyd` matches a record
rendered with artist `Pink Floyd`. -/
theorem matcher_dotplus_and_case_insensitive :
    (∀ (fmtTime : Int → List Char) (listen : Listen),
        listenString fmtTime listen ≠ [] ∧ matchDotPlus (listenString fmtTime listen) = true) ∧
    matchLiteralCI "floyd".toList (listenString fmtTimeFixed listen500) = true := by
  refine ⟨fun fmtTime listen => ⟨by simp [listenString], ?_⟩, by decide⟩
  simp [listenString, matchDotPlus]

/-- Claim C4: `deleteListen` (with the request constructed and sent
successfully) returns `true` exactly when the response status is 200; and
when deletion of a matched record fails, the orchestrator records the
print and the warning for that record and continues with the remaining
records instead of aborting. -/
theorem deleteListen_200_and_warn_continue :
    (∀ status : Int,
        deleteListen (Except.ok ()) (Except.ok ()) (Except.ok status) = DeleteResult.ret true ↔ status = 200) ∧
    (∀ (c : Int) (matcher : List Char → Except String Bool) (delFn : Listen → DeleteResult)
        (fmtTime : Int → List Char) (listen : Listen) (rest : List Listen) (events : List Event),
        ¬(c > 0 ∧ listen.listenedAt < c) →
        matcher (listenString fmtTime listen) = Except.ok true →
        delFn listen = DeleteResult.ret false →
        brainz c true matcher delFn fmtTime (listen :: rest) events =
          brainz c true matcher delFn fmtTime rest (events ++ [Event.printed listen, Event.warned listen])) := by
  constructor
  · intro status
    simp [deleteListen]
  · intro c matcher delFn fmtTime listen rest events hcut hmatch hdel
    rw [brainz, if_neg hcut, hmatch]
    simp only [if_pos rfl, hdel]
    simp [brainz]

/-- Witness for `deleteListen_200_and_warn_continue` on a concrete record
and a delete endpoint answering a non-200 status. -/
theorem deleteListen_200_and_warn_continue_witness :
    (deleteListen (Except.ok ()) (Except.ok ()) (Except.ok 200) = DeleteResult.ret true ↔ (200 : Int) = 200) ∧
    brainz 0 true matchAll (fun _ => DeleteResult.ret false) fmtTimeFixed [listen500] [] =
      brainz 0 true matchAll (fun _ => DeleteResult.ret false) fmtTimeFixed []
        ([] ++ [Event.printed listen500, Event.warned listen500]) :=
  ⟨deleteListen_200_and_warn_continue.1 200,
   deleteListen_200_and_warn_continue.2 0 matchAll (fun _ => DeleteResult.ret false) fmtTimeFixed
     listen500 [] [] (by decide) rfl rfl⟩

lemma consumePage_keeps (c m : Int) :
    ∀ (page acc res : List Listen),
      (∀ l ∈ acc, keepsRecord c l = true) →
      (consumePage c m page acc = Sum.inl res ∨ consumePage c m page acc = Sum.inr res) →
      ∀ l ∈ res, keepsRecord c l = true := by
  intro page
  induction page with
  | nil =>
    intro acc res hacc hres
    rcases hres with h | h <;> rw [consumePage] at h
    · cases h
    · cases h; exact hacc
  | cons x rest ih =>
    intro acc res hacc hres
    by_cases hx : c > 0 ∧ x.listenedAt < c
    · rcases hres with h | h <;> rw [consumePage, if_pos hx] at h
      · cases h; exact hacc
      · cases h
    · have hkx : keepsRecord c x = true := by simp [keepsRecord, hx]
      have hacc' : ∀ l ∈ acc ++ [x], keepsRecord c l = true := by
        intro l hl
        rcases List.mem_append.mp hl with h | h
        · exact hacc l h
        · rw [List.mem_singleton.mp h]; exact hkx
      by_cases hm : m ≤ ((acc ++ [x]).length : Int)
      · rcases hres with h | h <;> rw [consumePage, if_neg hx, if_pos hm] at h
        · cases h; exact hacc'
        · cases h
      · rcases hres with h | h <;> rw [consumePage, if_neg hx, if_neg hm] at h
        · exact ih (acc ++ [x]) res hacc' (Or.inl h)
        · exact ih (acc ++ [x]) res hacc' (Or.inr h)

lemma getAllListensAux_keeps (c m : Int) (fetch : Int → Except String Listens) :
    ∀ (fuel : Nat) (ts : Int) (acc res : List Listen),
      (∀ l ∈ acc, keepsRecord c l = true) →
      getAllListensAux c m fetch fuel ts acc = DriverResult.ok res →
      ∀ l ∈ res, keepsRecord c l = true := by
  intro fuel
  induction fuel with
  | zero => intro ts acc res hacc h; rw [getAllListensAux] at h; cases h
  | succ n ih =>
    intro ts acc res hacc h
    rw [getAllListensAux] at h
    by_cases hlen : (getListens (fetch ts)).length = 0
    · rw [if_pos hlen] at h; cases h; exact hacc
    · rw [if_neg hlen] at h
      have hne : (getListens (fetch ts)).payload.listens ≠ [] := by
        intro he; exact hlen (by simp [Listens.length, he])
      obtain ⟨ts', hts'⟩ := lastTimestamp_of_ne_nil hne
      rw [hts'] at h
      cases hcp : consumePage c m (getListens (fetch ts)).payload.listens acc with
      | inl r =>
        rw [hcp] at h; cases h
        exact consumePage_keeps c m _ acc res hacc (Or.inl hcp)
      | inr acc' =>
        rw [hcp] at h
        exact ih ts' acc' res (consumePage_keeps c m _ acc acc' hacc (Or.inr hcp)) h

/-- Claim C9: every record returned by `getAllListens` passes the cutoff
test — no returned record satisfies `cutOffTime > 0 ∧ listenedAt <
cutOffTime`, so the re-check branch in `brainz` that skips such records
is unreachable on this input, and the cutoff filter over the result is
the identity; with a non-negative cutoff this reads as `cutOffTime = 0 ∨
cutOffTime ≤ listenedAt` for every returned record. -/
theorem getAllListens_result_respects_cutoff
    (c m : Int) (fetch : Int → Except String Listens) (fuel : Nat) (res : List Listen)
    (hok : getAllListens c m fetch fuel = DriverResult.ok res) :
    (∀ l ∈ res, ¬(c > 0 ∧ l.listenedAt < c)) ∧
    res.filter (keepsRecord c) = res ∧
    (0 ≤ c → ∀ l ∈ res, c = 0 ∨ c ≤ l.listenedAt) := by
  have hkeep : ∀ l ∈ res, keepsRecord c l = true :=
    getAllListensAux_keeps c m fetch fuel 0 [] res (by simp) hok
  refine ⟨fun l hl => ?_, List.filter_eq_self.mpr hkeep, fun hc l hl => ?_⟩
  · have := hkeep l hl
    simp [keepsRecord] at this
    omega
  · have := hkeep l hl
    simp [keepsRecord] at this
    omega

/-- Witness for `getAllListens_result_respects_cutoff` on a concrete run
with cutoff 100 returning the single record timestamped 150. -/
theorem getAllListens_result_respects_cutoff_witness :
    getAllListens 100 10 fetchOne150 2 = DriverResult.ok [listen150] ∧
    ((∀ l ∈ [listen150], ¬((100 : Int) > 0 ∧ l.listenedAt < 100)) ∧
      [listen150].filter (keepsRecord 100) = [listen150] ∧
      ((0 : Int) ≤ 100 → ∀ l ∈ [listen150], (100 : Int) = 0 ∨ 100 ≤ l.listenedAt)) :=
  ⟨by decide, getAllListens_result_respects_cutoff 100 10 fetchOne150 2 [listen150] (by decide)⟩

lemma takeWhile_append_of_eq {α : Type} (p : α → Bool) :
    ∀ (l1 l2 : List α), l1.takeWhile p = l1 → (l1 ++ l2).takeWhile p = l1 ++ l2.takeWhile p := by
  intro l1
  induction l1 with
  | nil => intro l2 _; simp
  | cons a as ih =>
    intro l2 h
    rw [List.takeWhile_cons] at h
    by_cases hp : p a = true
    · rw [if_pos hp] at h
      have h' : as.takeWhile p = as := by injection h
      rw [List.cons_append, List.takeWhile_cons, if_pos hp, ih l2 h', List.cons_append]
    · rw [if_neg hp] at h
      cases h

lemma takeWhile_append_of_ne {α : Type} (p : α → Bool) :
    ∀ (l1 l2 : List α), l1.takeWhile p ≠ l1 → (l1 ++ l2).takeWhile p = l1.takeWhile p := by
  intro l1
  induction l1 with
  | nil => intro l2 h; simp at h
  | cons a as ih =>
    intro l2 h
    by_cases hp : p a = true
    · have h' : as.takeWhile p ≠ as := by
        intro he
        exact h (by rw [List.takeWhile_cons, if_pos hp, he])
      rw [List.cons_append, List.takeWhile_cons, if_pos hp,
        List.takeWhile_cons, if_pos hp, ih l2 h']
    · rw [List.cons_append, List.takeWhile_cons, if_neg hp, List.takeWhile_cons, if_neg hp]

lemma consumePage_characterized (c m : Int) :
    ∀ (page acc : List Listen), (acc.length : Int) < m →
      consumePage c m page acc =
        if page.takeWhile (keepsRecord c) = page ∧ ((acc.length : Int) + page.length < m)
        then Sum.inr (acc ++ page)
        else Sum.inl (acc ++ (page.takeWhile (keepsRecord c)).take (m.toNat - acc.length)) := by
  intro page
  induction page with
  | nil =>
    intro acc hacc
    rw [consumePage, if_pos ⟨by simp, by simpa using hacc⟩, List.append_nil]
  | cons x rest ih =>
    intro acc hacc
    by_cases hx : c > 0 ∧ x.listenedAt < c
    · have hkx : keepsRecord c x = false := by simp [keepsRecord, hx]
      rw [consumePage, if_pos hx, List.takeWhile_cons, hkx]
      simp
    · have hkx : keepsRecord c x = true := by simp [keepsRecord, hx]
      rw [consumePage, if_neg hx, List.takeWhile_cons, if_pos hkx]
      by_cases hm : m ≤ ((acc ++ [x]).length : Int)
      · rw [if_pos hm]
        have hlen : (acc ++ [x]).length = acc.length + 1 := by simp
        rw [if_neg (by
          rintro ⟨-, habs⟩
          rw [List.length_cons] at habs
          rw [hlen] at hm
          push_cast at habs hm ⊢
          omega)]
        have htake : m.toNat - acc.length = 1 := by
          rw [hlen] at hm; push_cast at hm; omega
        rw [htake, List.take_succ_cons, List.take_zero]
      · rw [if_neg hm]
        have hacc' : ((acc ++ [x]).length : Int) < m := by push_cast at hm ⊢; simp at hm ⊢; omega
        rw [ih (acc ++ [x]) hacc']
        have hlen : (acc ++ [x]).length = acc.length + 1 := by simp
        by_cases hc2 : rest.takeWhile (keepsRecord c) = rest ∧ ((acc.length : Int) + 1 + rest.length < m)
        · rw [if_pos (by rw [hlen]; push_cast; exact ⟨hc2.1, by have := hc2.2; omega⟩)]
          rw [if_pos ⟨by rw [hc2.1], by rw [List.length_cons]; push_cast; have := hc2.2; omega⟩]
          simp
        · rw [if_neg (by
            rintro ⟨h1, h2⟩
            rw [hlen] at h2
            push_cast at h2
            exact hc2 ⟨h1, by omega⟩)]
          rw [if_neg (by
            rintro ⟨h1, h2⟩
            rw [List.length_cons] at h2
            push_cast at h2
            have h1' : rest.takeWhile (keepsRecord c) = rest := by injection h1
            exact hc2 ⟨h1', by omega⟩)]
          have hge : 1 ≤ m.toNat - acc.length := by omega
          obtain ⟨k, hk⟩ : ∃ k, m.toNat - acc.length = k + 1 := ⟨m.toNat - acc.length - 1, by omega⟩
          rw [hk, List.take_succ_cons, hlen]
          have hk' : m.toNat - (acc.length + 1) = k := by omega
          rw [hk']
          simp

lemma getAllListensAux_serves (c m : Int) (fetch : Int → Except String Listens) (hm : 1 ≤ m) :
    ∀ (ps : List (List Listen)) (ts : Int) (acc : List Listen),
      servesPages fetch ps ts = true → (acc.length : Int) < m →
      getAllListensAux c m fetch (ps.length + 1) ts acc =
        DriverResult.ok (acc ++ ((ps.flatten).takeWhile (keepsRecord c)).take (m.toNat - acc.length)) := by
  intro ps
  induction ps with
  | nil =>
    intro ts acc hserve hacc
    simp only [servesPages, decide_eq_true_eq] at hserve
    rw [List.length_nil, getAllListensAux, if_pos (by simp [Listens.length, hserve])]
    simp
  | cons p rest ih =>
    intro ts acc hserve hacc
    simp only [servesPages, Bool.and_eq_true, decide_eq_true_eq] at hserve
    obtain ⟨hpage, hrest⟩ := hserve
    cases hlast : lastTimestamp p with
    | none => rw [hlast] at hrest; simp at hrest
    | some ts' =>
      rw [hlast] at hrest
      have hpne : p ≠ [] := by
        intro he; subst he; simp [lastTimestamp_nil] at hlast
      rw [List.length_cons, getAllListensAux,
        if_neg (by simp [Listens.length, hpage, List.length_eq_zero]; exact hpne)]
      simp only [hpage, hlast]
      rw [consumePage_characterized c m p acc hacc]
      by_cases hcond : p.takeWhile (keepsRecord c) = p ∧ ((acc.length : Int) + p.length < m)
      · rw [if_pos hcond]
        have hacc' : (((acc ++ p).length : Int)) < m := by
          rw [List.length_append]; push_cast; have := hcond.2; omega
        have ihape := ih ts' (acc ++ p) hrest hacc'
        show getAllListensAux c m fetch (rest.length + 1) ts' (acc ++ p) = _
        rw [ihape, List.flatten_cons, takeWhile_append_of_eq _ p rest.flatten hcond.1,
          List.take_append_eq_append_take]
        have hple : p.length ≤ m.toNat - acc.length := by
          have := hcond.2; omega
        rw [List.take_of_length_le hple, List.length_append]
        have harith : m.toNat - (acc.length + p.length) = m.toNat - acc.length - p.length := by omega
        rw [harith, List.append_assoc]
      · rw [if_neg hcond]
        show DriverResult.ok _ = _
        rw [List.flatten_cons]
        by_cases htw : p.takeWhile (keepsRecord c) = p
        · have hmle : m ≤ (acc.length : Int) + p.length := by
            rcases not_and_or.mp hcond with h | h
            · exact absurd htw h
            · omega
          rw [takeWhile_append_of_eq _ p rest.flatten htw, List.take_append_eq_append_take]
          have hkle : m.toNat - acc.length ≤ p.length := by omega
          rw [Nat.sub_eq_zero_of_le hkle, List.take_zero, List.append_nil, htw]
        · rw [takeWhile_append_of_ne _ p rest.flatten htw]

/-- Claim C1: against an endpoint serving a sequence of pages whose
records carry strictly decreasing timestamps, `getAllListens` (with the
count limit at least 1, as `main` enforces) returns exactly the served
records in served order, truncated at the first record whose timestamp is
strictly below the cutoff when a cutoff is set, and capped at `maxCount`
records — and in particular never returns more than `maxCount` records. -/
theorem getAllListens_matches_pagination_spec
    (c m : Int) (fetch : Int → Except String Listens) (ps : List (List Listen))
    (hm : 1 ≤ m) (hserve : servesPages fetch ps 0 = true)
    (_hdec : strictlyDecreasing ps.flatten = true) :
    getAllListens c m fetch (ps.length + 1) = DriverResult.ok (paginationSpec c m ps) ∧
    ((paginationSpec c m ps).length : Int) ≤ m := by
  constructor
  · have h := getAllListensAux_serves c m fetch hm ps 0 [] hserve (by simpa using hm)
    simpa [getAllListens, paginationSpec] using h
  · rw [paginationSpec]
    have h := List.length_take m.toNat ((ps.flatten).takeWhile (keepsRecord c))
    rw [h]
    have : min m.toNat ((ps.flatten).takeWhile (keepsRecord c)).length ≤ m.toNat := Nat.min_le_left _ _
    omega

/-- Witness for `getAllListens_matches_pagination_spec`: the spec's own
scenario — `maxCount = 2`, one page `[500, 400, 300]` — whose result is
`[500, 400]`. -/
theorem getAllListens_matches_pagination_spec_witness :
    getAllListens 0 2 fetchOnePage 2 = DriverResult.ok (paginationSpec 0 2 [[listen500, listen400, listen300]]) ∧
    ((paginationSpec 0 2 [[listen500, listen400, listen300]]).length : Int) ≤ 2 :=
  getAllListens_matches_pagination_spec 0 2 fetchOnePage [[listen500, listen400, listen300]]
    (by decide) (by decide) (by decide)

lemma sscanfInt_nil : sscanfInt [] = none := rfl

lemma wrapS64_id (x : Int) (h1 : int64Min ≤ x) (h2 : x ≤ int64Max) : wrapS64 x = x := by
  unfold int64Min at h1
  unfold int64Max at h2
  unfold wrapS64
  omega

/-- Claim C3, counterexample: the numeric part `1x` is not an integer, so
the claim demands an error, but `Sscanf` stops at the first non-digit and
succeeds with 1, so `parseTimeFilter` accepts `1xm` as one minute: with
the current time at unix second 1000000 it returns `999940`. -/
theorem parseTimeFilter_accepts_nonnumeric_cex :
    parseTimeFilter 1000000 0 "1xm".toList = Except.ok 999940 := by decide

/-- Claim C3, amended: `parseTimeFilter` returns 0 ("no cutoff") on the
empty string and an error on inputs shorter than 2 characters, on a
numeric part that `Sscanf`-style scanning cannot read an `int64` from, on
a non-positive amount, and on an unrecognized unit; when the numeric part
scans to a positive `n` (by `Sscanf` `%d` semantics: leading `fmt`
whitespace — `\v`, `\f`, a lone `\r`, Unicode spaces — and an optional
sign are allowed, a bare newline is a scan error, scanning stops at the
first non-digit and trailing characters are ignored) and the unit is one
of m/h/d/y with
per-unit duration `s` seconds, and `n` scaled by the unit does not
overflow the 64-bit nanosecond representation, the cutoff is the current
unix second minus `n * s`. -/
theorem parseTimeFilter_characterized :
    (∀ nowSec nowNsec : Int, parseTimeFilter nowSec nowNsec [] = Except.ok 0) ∧
    (∀ (nowSec nowNsec : Int) (input : List Char), input ≠ [] → input.length < 2 →
        isErrorResult (parseTimeFilter nowSec nowNsec input) = true) ∧
    (∀ (nowSec nowNsec : Int) (input : List Char), 2 ≤ input.length →
        sscanfInt input.dropLast = none →
        isErrorResult (parseTimeFilter nowSec nowNsec input) = true) ∧
    (∀ (nowSec nowNsec : Int) (input : List Char) (n : Int), 2 ≤ input.length →
        sscanfInt input.dropLast = some n → n ≤ 0 →
        isErrorResult (parseTimeFilter nowSec nowNsec input) = true) ∧
    (∀ (nowSec nowNsec : Int) (input : List Char) (n : Int), 2 ≤ input.length →
        sscanfInt input.dropLast = some n → 0 < n →
        unitNanos (input.getLastD ' ') = none →
        isErrorResult (parseTimeFilter nowSec nowNsec input) = true) ∧
    (∀ (nowSec nowNsec : Int) (nVal : List Char) (n s : Int) (u : Char),
        0 ≤ nowNsec → nowNsec < 1000000000 →
        sscanfInt nVal = some n → 0 < n →
        unitNanos u = some (s * 1000000000) → 0 < s →
        n * (s * 1000000000) ≤ int64Max →
        parseTimeFilter nowSec nowNsec (nVal ++ [u]) = Except.ok (nowSec - n * s)) := by
  refine ⟨fun nowSec nowNsec => rfl, ?_, ?_, ?_, ?_, ?_⟩
  · intro nowSec nowNsec input hne hlen
    rw [parseTimeFilter, if_neg hne, if_pos hlen]
    rfl
  · intro nowSec nowNsec input hlen hscan
    have hne : input ≠ [] := by
      intro he; subst he; simp at hlen
    rw [parseTimeFilter, if_neg hne, if_neg (by omega), hscan]
    rfl
  · intro nowSec nowNsec input n hlen hscan hn
    have hne : input ≠ [] := by
      intro he; subst he; simp at hlen
    rw [parseTimeFilter, if_neg hne, if_neg (by omega)]
    simp only [hscan]
    rw [if_pos hn]
    rfl
  · intro nowSec nowNsec input n hlen hscan hn hunit
    have hne : input ≠ [] := by
      intro he; subst he; simp at hlen
    rw [parseTimeFilter, if_neg hne, if_neg (by omega)]
    simp only [hscan]
    rw [if_neg (by omega)]
    simp only [hunit]
    rfl
  · intro nowSec nowNsec nVal n s u hns0 hns1 hscan hn hunit hs hbound
    have hnv : nVal ≠ [] := by
      intro he; subst he; rw [sscanfInt_nil] at hscan; cases hscan
    have hlen1 : 1 ≤ nVal.length := List.length_pos.mpr hnv
    rw [parseTimeFilter, if_neg (by simp), if_neg (by simp; omega),
      List.dropLast_concat]
    simp only [hscan]
    rw [if_neg (by omega), List.getLastD_concat]
    simp only [hunit]
    have hx0 : 0 < n * (s * 1000000000) := by
      have h9 : (0 : Int) < 1000000000 := by norm_num
      exact mul_pos hn (mul_pos hs h9)
    have hw1 : wrapS64 (n * (s * 1000000000)) = n * (s * 1000000000) :=
      wrapS64_id _ (by unfold int64Min; omega) hbound
    rw [hw1]
    have hw2 : wrapS64 (-(n * (s * 1000000000))) = -(n * (s * 1000000000)) :=
      wrapS64_id _ (by unfold int64Min int64Max at *; omega)
        (by unfold int64Max at *; omega)
    rw [hw2]
    have hnum : nowSec * 1000000000 + nowNsec + -(n * (s * 1000000000)) =
        nowNsec + 1000000000 * (nowSec - n * s) := by ring
    rw [hnum, Int.fdiv_eq_ediv _ (by norm_num),
      Int.add_mul_ediv_left nowNsec (nowSec - n * s) (by norm_num : (1000000000 : Int) ≠ 0),
      Int.ediv_eq_zero_of_lt hns0 hns1, zero_add]

/-- Witness for `parseTimeFilter_characterized`: the input `5m` at unix
second 1000000 parses to the cutoff 999700 = 1000000 - 5 * 60. -/
theorem parseTimeFilter_characterized_witness :
    sscanfInt "5".toList = some 5 ∧ unitNanos 'm' = some (60 * 1000000000) ∧
    parseTimeFilter 1000000 0 ("5".toList ++ ['m']) = Except.ok (1000000 - 5 * 60) :=
  ⟨by decide, by decide,
   parseTimeFilter_characterized.2.2.2.2.2 1000000 0 "5".toList 5 60 'm'
     (by decide) (by decide) (by decide) (by decide) (by decide) (by decide) (by decide)⟩

